import Mathlib

/-!
Verification development for the task-dependency graph visualizer of the
kair-repo web console.  All definitions below are shallow embeddings of the
code in `src/kair-client/components/project-graph-pane.tsx` (line numbers in
the doc comments refer to that file).  Task and dependency ids are modelled
by their string representation: the component converts every id to a string
(`task.id.toString()`, `dep.source.toString()`, ...) before use.
-/

namespace Kair

/-- `interface Task` (lines 67-71).  `id : number | string` is modelled by the
string the component derives with `toString()`. -/
structure Task where
  id : String
  name : String
  schema : String
  deriving DecidableEq, Repr

/-- `interface Dependency` (lines 73-79). -/
structure Dependency where
  source : String
  target : String
  data_flow : String
  relationship_description : String
  data_schema : String
  deriving DecidableEq, Repr

/-- The reactflow `Position` enum values used by the component
(`Position.Left`, `Position.Right` at lines 195-196). -/
inductive HandleSide where
  | top | bottom | left | right
  deriving DecidableEq, Repr

/-- The reactflow `MarkerType` values used (only `MarkerType.ArrowClosed`,
line 367). -/
inductive MarkerKind where
  | arrowClosed
  deriving DecidableEq, Repr

/-- The `EdgeMarker` object built at line 367:
`{ type: MarkerType.ArrowClosed, width: 20, height: 20, color: '#333' }`. -/
structure EdgeMarker where
  type : MarkerKind
  width : Int
  height : Int
  color : String
  deriving DecidableEq, Repr

/-- The subset of `CSSProperties` fields the component actually writes on an
edge style (lines 346-369). -/
structure EdgeStyle where
  stroke : String
  strokeWidth : ℚ
  strokeDasharray : Option String
  opacity : Option ℚ
  pointerEvents : Option String
  deriving DecidableEq, Repr

/-- Pixel position `{ x, y }`.  The container size delivered by the resize
observer is modelled as an integer, so positions are integers and
`Math.floor` is `Int.fdiv`. -/
structure Pos where
  x : Int
  y : Int
  deriving DecidableEq, Repr

/-- `TaskNodeData` (lines 37-41), minus the `openMenuAt` UI callback, which
is an event-plumbing closure with no graph-model content. -/
structure NodeData where
  label : String
  schema : String
  deriving DecidableEq, Repr

/-- A reactflow `Node` as constructed by the component (lines 328-343 and
mutated by the layout engine, lines 193-198).  `width` and
`backgroundColor` model the `style` object of line 341;
`sourcePosition`/`targetPosition` start absent and are set by layout. -/
structure GraphNode where
  id : String
  position : Pos
  data : NodeData
  className : String
  type : String
  width : Int
  backgroundColor : Option String
  sourcePosition : Option HandleSide
  targetPosition : Option HandleSide
  deriving DecidableEq, Repr

/-- A reactflow `Edge<Dependency>` as constructed at lines 361-374. -/
structure GraphEdge where
  id : String
  source : String
  target : String
  type : String
  hidden : Bool
  markerEnd : Option EdgeMarker
  markerStart : Option EdgeMarker
  style : EdgeStyle
  sourceHandle : String
  targetHandle : String
  data : Dependency
  deriving DecidableEq, Repr

/-- Layout constants (lines 90-93). -/
def nodeWidth : Int := 180
def nodeHeight : Int := 55
def rowGap : Int := 120
def colGap : Int := 40

/-- Case-insensitive prefix test, used to model the anchored case-insensitive
regexes of `stripTaskLabel`. -/
def startsWithCI (pre s : String) : Bool :=
  (s.take pre.length).toLower = pre.toLower

/-- `stripTaskLabel` (lines 205-212): strip a leading `Task` token
(`/^Task\s*/i`), replace a leading `Plan:` token (`/^Plan:\s*/i`) with
`-`, then trim.  The regex `\s*` consumes the whitespace following the
matched word; `\s` is modelled by `Char.isWhitespace`. -/
def stripTaskLabel (name : String) : String :=
  if name = "" then ""
  else
    let s1 := if startsWithCI "task" name
      then ((name.drop 4).dropWhile Char.isWhitespace)
      else name
    let s2 := if startsWithCI "plan:" s1
      then "-" ++ ((s1.drop 5).dropWhile Char.isWhitespace)
      else s1
    s2.trim

/-- JS regex word characters, for the `\b` boundaries in
`backgroundForTask`'s patterns. -/
def isWordChar (c : Char) : Bool :=
  c.isAlphanum || c = '_'

/-- The maximal runs of word characters of a string.  A pattern such as
`/.*\bgather\b/` matches the (lowercased) name iff `"gather"` is one of
these runs. -/
def wordsOf (s : String) : List String :=
  ((s.toList.splitOnP (fun c => !isWordChar c)).map List.asString).filter
    (fun w => w ≠ "")

/-- `backgroundForTask` (lines 215-241): keyword classification of the task
name, first match wins. -/
def backgroundForTask (name : String) : Option String :=
  if name = "" then none
  else
    let ws := wordsOf name.toLower
    if ws.contains "plan" || ws.contains "planning" then
      some "hsla(0, 0%, 92%, 0.9)"
    else if ws.contains "gather" || ws.contains "collect" || ws.contains "summarize" then
      some "hsla(140, 60%, 92%, 0.9)"
    else if ws.contains "identify" || ws.contains "select" || ws.contains "choose" then
      some "hsla(50, 100%, 90%, 0.9)"
    else if ws.contains "consolidate" || ws.contains "develop" || ws.contains "design" then
      some "hsla(0, 80%, 94%, 0.9)"
    else none

/-- The node construction of the graph fetch effect, lines 328-343
(`initialNodes`), one task at a time. -/
def buildNode (task : Task) : GraphNode :=
  let label := stripTaskLabel task.name
  let bg := backgroundForTask task.name
  { id := task.id
    position := ⟨0, 0⟩
    data := { label := label, schema := task.schema }
    className := "task-node"
    type := "task"
    width := nodeWidth
    backgroundColor := bg
    sourcePosition := none
    targetPosition := none }

/-- The marker object of line 367. -/
def arrowClosedMarker : EdgeMarker :=
  { type := .arrowClosed, width := 20, height := 20, color := "#333" }

/-- The edge construction of the graph fetch effect, lines 345-375
(`initialEdges`), one dependency at a time.  `markerStart` is declared at
line 348 and never assigned, so it is `none` on both sides of the
conditional at line 368. -/
def buildEdge (dep : Dependency) : GraphEdge :=
  let baseStyle : EdgeStyle :=
    { stroke := "#333", strokeWidth := 3/2, strokeDasharray := none
      opacity := none, pointerEvents := none }
  let markerStart : Option EdgeMarker := none
  let edgeStyle :=
    if dep.data_flow = "rethinking the previous task" then
      { baseStyle with strokeDasharray := some "5,5" }
    else baseStyle
  let isFeedback := dep.data_flow = "gated by user feedback"
  let isParent := dep.data_flow = "parent task-subtask"
  let edgeStyle :=
    if isParent then { edgeStyle with strokeDasharray := some "4 4" }
    else edgeStyle
  { id := "e" ++ dep.source ++ "-" ++ dep.target
    source := dep.source
    target := dep.target
    type := if isParent then "straight" else "simplebezier"
    hidden := isFeedback
    markerEnd := if isFeedback then none else some arrowClosedMarker
    markerStart := if isFeedback then none else markerStart
    style :=
      if isFeedback then
        { edgeStyle with opacity := some 0, pointerEvents := some "none" }
      else edgeStyle
    sourceHandle := if isParent then "bottom" else "right"
    targetHandle := if isParent then "top" else "left"
    data := dep }

/-! ### Topological Leveler (`computeTopoLevels`, lines 96-148)

The JS algorithm keeps two `Map`s (`levelOf`, `indeg`) populated exactly for
the node ids and always read with a `?? 0` / `?? 1` default, so each map is
modelled as a total function with default value `0`; `levelOf` stays in
`Nat` (levels only grow via `max`), `indeg` lives in `Int` (it is
decremented).  The `while` loop is modelled with explicit fuel
`2 * ids.length`; `topoLoop_drains_queue` below proves this fuel always
drains the queue, so the embedding computes exactly what the (terminating)
JS loop computes. -/

/-- `nodes.map(n => n.id.toString())` (line 97). -/
def nodeIds (nodes : List GraphNode) : List String :=
  nodes.map (·.id)

/-- The dependency-kind string driving the leveler (line 99). -/
def parentKind : String := "parent task-subtask"

/-- The `parentEdges` filter (line 99) combined with the dangling-reference
skip of line 110 (`if (!idSet.has(s) || !idSet.has(t)) continue`): the
parent/subtask dependencies restricted to known node ids, in input order,
as (source, target) pairs of strings. -/
def parentEdges (ids : List String) (deps : List Dependency) : List (String × String) :=
  ((deps.filter (fun d => d.data_flow = parentKind)).filter
      (fun d => ids.contains d.source && ids.contains d.target)).map
    (fun d => (d.source, d.target))

/-- The adjacency map `adj` (lines 101-113): out-neighbour list of `s`, in
edge order, with multiplicity. -/
def adjOf (edges : List (String × String)) (s : String) : List String :=
  (edges.filter (fun e => e.1 = s)).map (·.2)

/-- The initial in-degree map `indeg` (lines 101-113): number of restricted
edges entering `v`. -/
def indeg0Of (edges : List (String × String)) (v : String) : Int :=
  (edges.countP (fun e => e.2 = v) : Int)

/-- The seed queue (lines 116-122): ids of in-degree zero, in `ids` order. -/
def seedQueue (ids : List String) (edges : List (String × String)) : List String :=
  ids.filter (fun id => indeg0Of edges id = 0)

/-- The mutable state of the `while` loop of lines 129-141. -/
structure TopoState where
  levelOf : String → Nat
  indeg : String → Int
  q : List String
  maxLevel : Nat

/-- One step of the inner `for (const v of adj.get(u) ?? [])` loop
(lines 133-140), given the captured `uLevel` of line 132. -/
def relaxStep (uLevel : Nat) (st : TopoState) (v : String) : TopoState :=
  let next := max (st.levelOf v) (uLevel + 1)
  { levelOf := fun x => if x = v then next else st.levelOf x
    indeg := fun x => if x = v then st.indeg v - 1 else st.indeg x
    q := if st.indeg v - 1 = 0 then st.q ++ [v] else st.q
    maxLevel := max st.maxLevel next }

/-- The inner relaxation loop over the dequeued node's out-neighbours
(lines 133-140). -/
def processEdges (uLevel : Nat) (vs : List String) (st : TopoState) : TopoState :=
  vs.foldl (relaxStep uLevel) st

/-- The outer `while (q.length)` loop (lines 130-141), with fuel. -/
def topoLoop (adj : String → List String) : Nat → TopoState → TopoState
  | 0, st => st
  | fuel + 1, st =>
    match st.q with
    | [] => st
    | u :: rest =>
      topoLoop adj fuel
        (processEdges (st.levelOf u) (adj u) { st with q := rest })

/-- The loop state right before the `while` loop: seeds at level 0 (the
default), initial in-degrees, seed queue, `maxLevel = 0`. -/
def initTopoState (ids : List String) (edges : List (String × String)) : TopoState :=
  { levelOf := fun _ => 0
    indeg := indeg0Of edges
    q := seedQueue ids edges
    maxLevel := 0 }

/-- Fuel for the worklist loop; `topoLoop_drains_queue` shows it suffices. -/
def topoFuel (ids : List String) : Nat :=
  2 * ids.length

/-- `computeTopoLevels` (lines 96-148) on the id list.  The early
`q.length === 0` return of lines 124-127 assigns level 0 to every id,
observationally the constant-0 map; the trailing loop of lines 144-146
likewise only writes the default 0, so the returned map is exactly the
loop's final `levelOf`. -/
def computeTopoLevelsIds (ids : List String) (deps : List Dependency) :
    (String → Nat) × Nat :=
  let edges := parentEdges ids deps
  if seedQueue ids edges = [] then (fun _ => 0, 0)
  else
    let st := topoLoop (adjOf edges) (topoFuel ids) (initTopoState ids edges)
    (st.levelOf, st.maxLevel)

/-- `computeTopoLevels(nodes, deps)` (line 96). -/
def computeTopoLevels (nodes : List GraphNode) (deps : List Dependency) :
    (String → Nat) × Nat :=
  computeTopoLevelsIds (nodeIds nodes) deps

/-! ### Banded Layout Engine (`getLayoutedElements`, lines 150-202)

The JS engine mutates each node object in place and returns the original
array.  Object identity is modelled by tagging each node with its index in
the input list (`List.enum`); the per-band placement produces an
(index ↦ position) assignment which is then mapped back over the input
list, preserving its order, exactly as the in-place mutation does. -/

/-- Padding constants of lines 166-167. -/
def sidePad : Int := 20
def bandTopPad : Int := 10

/-- Model of `la.localeCompare(lb, undefined, { sensitivity: 'base' })`
(line 180): a case-insensitive comparison.  (The exact ICU collation order
is environment-dependent; no property below depends on the particular
order, only on it being a fixed comparison of the labels.) -/
def labelCompare (a b : String) : Ordering :=
  compare a.toLower b.toLower

/-- Insert `x` into an already sorted list: `x` goes before the first
element that must come strictly after it.  Inserting the elements in input
order therefore keeps equal-comparing elements in input order — the
stability guarantee of JS `Array.prototype.sort`. -/
def sortInsert (cmp : α → α → Ordering) (x : α) : List α → List α
  | [] => [x]
  | y :: ys =>
    if cmp y x = Ordering.gt then x :: y :: ys else y :: sortInsert cmp x ys

/-- Stable comparison sort (model of `arr.sort(...)` at lines 177-181). -/
def stableSortBy (cmp : α → α → Ordering) (l : List α) : List α :=
  l.foldl (fun acc x => sortInsert cmp x acc) []

/-- The level bucket for `lvl` (lines 170-175: nodes grouped by level, in
input order) already sorted by label (lines 176-182).  Nodes are tagged
with their input index. -/
def layoutBucket (tagged : List (Nat × GraphNode)) (levelOf : String → Nat)
    (lvl : Nat) : List (Nat × GraphNode) :=
  stableSortBy (fun a b => labelCompare a.2.data.label b.2.data.label)
    (tagged.filter (fun p => levelOf p.2.id = lvl))

/-- The per-band position computation of lines 185-198, producing
(input index ↦ position) pairs for one band.  `Math.floor` of a real
division of integers is `Int.fdiv`; `y`'s outer `Math.floor` commutes with
adding the integers `bandTop + bandTopPad`. -/
def bandAssignments (sorted : List (Nat × GraphNode)) (lvl : Nat)
    (sliceHeight width : Int) : List (Nat × Pos) :=
  let count : Int := max 1 (sorted.length : Int)
  let usableWidth := max (nodeWidth + colGap) (width - sidePad * 2)
  let stepX := max (nodeWidth + colGap) (usableWidth.fdiv count)
  let bandTop := (lvl : Int) * sliceHeight
  let y := bandTop + bandTopPad + ((sliceHeight - bandTopPad * 2 - nodeHeight).fdiv 2)
  sorted.enum.map (fun p => (p.2.1, ⟨sidePad + (p.1 : Int) * stepX, y⟩))

/-- The whole (index ↦ position) assignment, bands stacked by level index
(the `for (let lvl = 0; lvl < levelCount; lvl++)` loop of line 185). -/
def layoutAssignments (tagged : List (Nat × GraphNode)) (levelOf : String → Nat)
    (levelCount : Nat) (sliceHeight width : Int) : List (Nat × Pos) :=
  (List.range levelCount).flatMap (fun lvl =>
    bandAssignments (layoutBucket tagged levelOf lvl) lvl sliceHeight width)

/-- The in-place mutation of one node by the placement loop (lines
193-198), as a function of the (index ↦ position) assignment: a node the
loop visits gets its position and the fixed `Left`/`Right` anchor sides; a
node it never visits is left as-is. -/
def applyAssignment (assign : List (Nat × Pos)) (p : Nat × GraphNode) : GraphNode :=
  match assign.lookup p.1 with
  | some pos =>
    { p.2 with
      position := pos
      targetPosition := some HandleSide.left
      sourcePosition := some HandleSide.right }
  | none => p.2

/-- The full (input index ↦ position) assignment computed by
`getLayoutedElements` from its inputs (the `width`/`height` defaulting of
lines 157-158, the level computation of line 161, `levelCount` of line
162 and `sliceHeight` of line 165). -/
def layoutAssignFor (nodes : List GraphNode) (deps : List Dependency)
    (viewportWidth viewportHeight : Int) : List (Nat × Pos) :=
  let width := if viewportWidth > 0 then viewportWidth else 1000
  let height := if viewportHeight > 0 then viewportHeight else 700
  let lv := computeTopoLevels nodes deps
  let levelCount : Nat := max 1 (lv.2 + 1)
  let sliceHeight : Int := max (nodeHeight + rowGap) (height.fdiv (levelCount : Int))
  layoutAssignments nodes.enum lv.1 levelCount sliceHeight width

/-- `getLayoutedElements` (lines 150-202).  A node whose level falls outside
`0..levelCount-1` is never visited by the placement loop and keeps its
input position, exactly as in the source.  Placed nodes additionally get
`targetPosition = Left`, `sourcePosition = Right` (lines 195-196).  The
edge list is returned unchanged (line 201). -/
def getLayoutedElements (nodes : List GraphNode) (allEdges : List GraphEdge)
    (deps : List Dependency) (viewportWidth viewportHeight : Int) :
    List GraphNode × List GraphEdge :=
  (nodes.enum.map (applyAssignment (layoutAssignFor nodes deps viewportWidth viewportHeight)),
   allEdges)

/-! ### Graph fetch effect (lines 316-384)

The fetch effect resolves `pid`, issues the two requests, parses both
bodies, builds nodes and edges and then commits the three `setBase*`
updates.  Everything from the `await`s through the `map`s happens before
the first `setBase*` call, and a thrown error anywhere in the `try` block
skips all three setters (the `catch` of lines 380-382 only logs), so the
commit is atomic.  Transport and parse outcomes are modelled as `Except`
values. -/

/-- The base graph state of the pane: `baseNodes`, `baseEdges`, `baseDeps`
(lines 285-287). -/
structure PaneGraphState where
  baseNodes : List GraphNode
  baseEdges : List GraphEdge
  baseDeps : List Dependency
  deriving DecidableEq, Repr

/-- The body of the fetch effect (lines 319-383) after the two responses
arrive: `tasksJson` and `depsJson` are the outcomes of
`tasksRes.json()` / `depsRes.json()` (a transport failure of either
`secureFetch` is the same `.error` case, caught by the same `catch`).  On
any failure the previous state is returned untouched; on success all three
base fields are replaced wholesale. -/
def graphFetchEffect (st : PaneGraphState)
    (tasksJson : Except String (List Task))
    (depsJson : Except String (List Dependency)) : PaneGraphState :=
  match tasksJson with
  | .error _ => st
  | .ok tasks =>
    match depsJson with
    | .error _ => st
    | .ok deps =>
      { baseNodes := tasks.map buildNode
        baseEdges := deps.map buildEdge
        baseDeps := deps }

/-- A graph fetch in flight: the project id it was issued for (captured by
the effect closure at line 317) and the parsed results it will deliver. -/
structure InFlightFetch where
  pid : Int
  tasks : List Task
  deps : List Dependency
  deriving DecidableEq, Repr

/-- The pane state relevant to stale-fetch behaviour: the currently active
project id (`selectedId ?? projectId`, line 317) and the base graph. -/
structure PaneFetchState where
  currentPid : Int
  base : PaneGraphState
  deriving DecidableEq, Repr

/-- A project switch: only the active id changes; the base graph is
replaced later, when some fetch completes. -/
def switchProject (st : PaneFetchState) (pid : Int) : PaneFetchState :=
  { st with currentPid := pid }

/-- Successful completion of an in-flight fetch (lines 321-379).  The
completion handler commits `setBaseNodes`/`setBaseEdges`/`setBaseDeps`
unconditionally: no field of the closure is compared against the current
project id, so the results are applied even if `f.pid` is no longer
`st.currentPid`. -/
def completeGraphFetch (st : PaneFetchState) (f : InFlightFetch) : PaneFetchState :=
  { st with
    base :=
      { baseNodes := f.tasks.map buildNode
        baseEdges := f.deps.map buildEdge
        baseDeps := f.deps } }

/-! ### Selection & Sync Controller (lines 243-565)

`selectedElement` holds a node or an edge; the controller only ever reads
its `id` (line 480), so an element is modelled by its kind and id string. -/

/-- The selected element: a task node or a dependency edge, identified by
its reactflow id string. -/
inductive PaneElement where
  | node (id : String)
  | edge (id : String)
  deriving DecidableEq, Repr

/-- The `id` field read by `sel.id.toString()` at line 480 (both nodes and
edges carry an `id`). -/
def PaneElement.elemId : PaneElement → String
  | .node i => i
  | .edge i => i

/-- The controller state driving selection sync: `selectedId` (the active
project id, `number | null`, line 249) and `selectedElement` (line 246). -/
structure PaneSyncState where
  selectedId : Option Int
  selectedElement : Option PaneElement
  deriving DecidableEq, Repr

/-- Reaction to a `projectId` prop change from `oldPid` to `newPid`,
combining the three effects that watch it, in source order:
* line 515-517: `if (projectId) setSelectedId(projectId)` (deps `[projectId]`);
* line 523-525: `setSelectedElement(null)` (deps `[selectedId, projectId]`);
* line 563-565: `notifyTaskSelected(null)` (deps `[projectId]`).
All three run in the pass triggered by the prop change; the state update
of the first triggers one more pass in which only the second effect's
dependencies have changed again, which re-clears the already-cleared
element.  The returned list is the sequence of `onTaskSelected` payloads
emitted. -/
def onPropProjectIdChange (st : PaneSyncState) (oldPid newPid : Int) :
    PaneSyncState × List (Option Int) :=
  if oldPid ≠ newPid then
    ({ selectedId := if newPid ≠ 0 then some newPid else st.selectedId
       selectedElement := none }, [none])
  else (st, [])

/-- Reaction to the `project-changed` broadcast (lines 528-537): the
handler reads `e.detail?.projectId`; `payload = none` models a missing
detail (`undefined`, no update), `payload = some pid` models a delivered
`number | null`, which is stored with `setSelectedId`.  A subsequent
effect pass runs only the effects whose dependencies changed: the clear
effect of lines 523-525 (deps `[selectedId, projectId]`) fires iff
`selectedId` actually changed; the notify effect of lines 563-565 (deps
`[projectId]`) never fires, because the prop did not change.  No
`onTaskSelected` call is emitted on this route. -/
def onProjectBroadcast (st : PaneSyncState) (payload : Option (Option Int)) :
    PaneSyncState × List (Option Int) :=
  match payload with
  | none => (st, [])
  | some pid =>
    if pid ≠ st.selectedId then
      ({ selectedId := pid, selectedElement := none }, [])
    else (st, [])

/-! ### Mutation Orchestrator -/

/-- The post-success selection update of `deleteTask` (lines 479-485):
`setSelectedElement(sel => ...)` clears the selection and notifies the
host with `null` iff the selected element's id string equals the deleted
task id; otherwise the selection is returned unchanged and nothing is
emitted.  Returns the new selection and the `onTaskSelected` payloads. -/
def deleteTaskOnSuccess (sel : Option PaneElement) (taskId : String) :
    Option PaneElement × List (Option Int) :=
  match sel with
  | some el => if el.elemId = taskId then (none, [none]) else (some el, [])
  | none => (none, [])

/-- The selection-restore effect (lines 405-418), parameterised by the
environment's `Number` conversion restricted by `Number.isFinite` (lines
412-413): `numberOf s = some q` models `Number(s)` evaluating to the
finite binary64 value `q` (every finite float is a rational), `numberOf
s = none` models `NaN` or `±Infinity`, which suppress the notification.
`Number` on strings is an ECMAScript runtime primitive with a wide
grammar — `Number("")` and `Number("  42 ")` are `0` and `42`,
`"1.5"`, `"1e3"`, `"0x1A"`, `"+5"` are all finite, `"x"` is `NaN`,
`"1e999"` is `Infinity` — so, like the locale-collation comparison of the
layout engine, it is kept as a parameter and the theorems hold for every
such function.

Inputs: the conversion, the preserve-selection marker
(`preserveSelectedIdRef.current`), the freshly rendered node list and the
current selection.  Output: the new marker value, the new selection and
the emitted `onTaskSelected` payloads.
* the guard `!preserveSelectedIdRef.current || nodes.length === 0`
  (line 407) early-returns when the marker is `null` *or the falsy empty
  string*, or when the node list is empty: nothing changes and the marker
  survives;
* otherwise the marker is cleared (line 417) regardless of a match, and a
  found node becomes the selection; the host is notified exactly when its
  id converts to a finite number (lines 412-414). -/
def restoreSelectionEffect (numberOf : String → Option ℚ)
    (marker : Option String) (nodes : List GraphNode)
    (sel : Option PaneElement) :
    Option String × Option PaneElement × List (Option ℚ) :=
  match marker with
  | none => (none, sel, [])
  | some wanted =>
    if wanted = "" then (some wanted, sel, [])
    else if nodes.length = 0 then (some wanted, sel, [])
    else
      match nodes.find? (fun n => n.id = wanted) with
      | some found =>
        (none, some (PaneElement.node found.id),
          match numberOf found.id with
          | some k => [some k]
          | none => [])
      | none => (none, sel, [])

/-- A concrete instance of the `Number`-conversion parameter for the
concrete runs below, agreeing with ECMAScript on the id strings they use:
`Number("2")` is the finite value `2`, while `Number("x")` is `NaN`
(`"x"` matches no production of the StringNumericLiteral grammar), hence
`none`. -/
def numberOnSample : String → Option ℚ :=
  fun s => if s = "2" then some 2 else none

/-! ### Proof infrastructure for the leveler

`topoLoopG` is `topoLoop` instrumented with a ghost record of the dequeued
nodes; `topoLoopG_fst` (below) shows the instrumentation does not change
the computed state.  `topoMeasure` is the termination measure of the
worklist loop; `TopoInv` / `FoldInv` are its invariants. -/

/-- `topoLoop` with a ghost `done` list recording dequeued nodes in order. -/
def topoLoopG (adj : String → List String) :
    Nat → TopoState → List String → TopoState × List String
  | 0, st, done => (st, done)
  | fuel + 1, st, done =>
    match st.q with
    | [] => (st, done)
    | u :: rest =>
      topoLoopG adj fuel
        (processEdges (st.levelOf u) (adj u) { st with q := rest })
        (done ++ [u])

/-- Termination measure: queue length plus the number of distinct ids whose
in-degree is still positive.  Each loop iteration strictly decreases it. -/
def topoMeasure (ids : List String) (st : TopoState) : Nat :=
  st.q.length + (ids.dedup.filter (fun v => decide (0 < st.indeg v))).length

/-- Invariant of the (instrumented) worklist loop, over the restricted edge
list `edges`:
1. no id is ever queued or dequeued twice;
2. `indeg v` counts the in-edges of `v` whose source has not been dequeued;
3. queued and dequeued ids have in-degree 0 (all their in-edges relaxed);
4. an id whose in-degree reached 0 has been queued;
5. every edge out of a dequeued node has been relaxed: the target's level
   exceeds the (frozen) source level. -/
def TopoInv (ids : List String) (edges : List (String × String))
    (st : TopoState) (done : List String) : Prop :=
  (done ++ st.q).Nodup ∧
  (∀ v, st.indeg v = (edges.countP (fun e => decide (e.2 = v ∧ e.1 ∉ done)) : Int)) ∧
  (∀ v, (v ∈ st.q ∨ v ∈ done) → st.indeg v = 0) ∧
  (∀ x ∈ ids, st.indeg x = 0 → x ∈ st.q ∨ x ∈ done) ∧
  (∀ e ∈ edges, e.1 ∈ done → st.levelOf e.1 + 1 ≤ st.levelOf e.2)

/-- Invariant of the inner relaxation fold, parameterised by the suffix
`pend` of the dequeued node's adjacency list still to be processed (the
dequeued node is already in `done`). -/
def FoldInv (ids : List String) (edges : List (String × String))
    (done : List String) (pend : List String) (st : TopoState) : Prop :=
  (done ++ st.q).Nodup ∧
  (∀ v, st.indeg v =
    (edges.countP (fun e => decide (e.2 = v ∧ e.1 ∉ done)) : Int) + pend.count v) ∧
  (∀ v, (v ∈ st.q ∨ v ∈ done) → st.indeg v = 0) ∧
  (∀ x ∈ ids, st.indeg x = 0 → x ∈ st.q ∨ x ∈ done)

/-! ## Theorems -/

/-! ### List helper lemmas -/

theorem length_filter_mono {α : Type} (l : List α) (p q : α → Bool)
    (h : ∀ x ∈ l, p x = true → q x = true) :
    (l.filter p).length ≤ (l.filter q).length := by
  induction l with
  | nil => simp
  | cons a t ih =>
    have ht : ∀ x ∈ t, p x = true → q x = true :=
      fun x hx => h x (List.mem_cons_of_mem _ hx)
    by_cases hp : p a = true
    · have hq := h a (List.mem_cons_self _ _) hp
      simpa [List.filter_cons, hp, hq] using ih ht
    · by_cases hq : q a = true
      · simp only [List.filter_cons, if_neg hp, if_pos hq, List.length_cons]
        exact Nat.le_succ_of_le (ih ht)
      · simpa [List.filter_cons, hp, hq] using ih ht

theorem length_filter_strict {α : Type} (l : List α) (p q : α → Bool) (v : α)
    (hv : v ∈ l) (hpv : p v = false) (hqv : q v = true)
    (h : ∀ x ∈ l, p x = true → q x = true) :
    (l.filter p).length + 1 ≤ (l.filter q).length := by
  induction l with
  | nil => cases hv
  | cons a t ih =>
    have ht : ∀ x ∈ t, p x = true → q x = true :=
      fun x hx => h x (List.mem_cons_of_mem _ hx)
    rcases List.mem_cons.mp hv with rfl | hvt
    · have hpa : ¬ p v = true := by simp [hpv]
      simp only [List.filter_cons, if_neg hpa, if_pos hqv, List.length_cons]
      exact Nat.succ_le_succ (length_filter_mono t p q ht)
    · by_cases hpa : p a = true
      · have hqa := h a (List.mem_cons_self _ _) hpa
        simp only [List.filter_cons, if_pos hpa, if_pos hqa, List.length_cons]
        exact Nat.succ_le_succ (ih hvt ht)
      · by_cases hqa : q a = true
        · simp only [List.filter_cons, if_neg hpa, if_pos hqa, List.length_cons]
          exact Nat.le_succ_of_le (ih hvt ht)
        · simp only [List.filter_cons, if_neg hpa, if_neg hqa]
          exact ih hvt ht

/-! ### Termination of the leveler worklist loop -/

theorem relaxStep_measure (ids : List String) (uLevel : Nat) (st : TopoState)
    (v : String) (hv : v ∈ ids) :
    topoMeasure ids (relaxStep uLevel st v) ≤ topoMeasure ids st := by
  have hvd : v ∈ ids.dedup := List.mem_dedup.mpr hv
  by_cases hpush : st.indeg v - 1 = 0
  · -- v's in-degree hits zero: it is appended to the queue, but it leaves
    -- the positive-in-degree set, so the measure does not grow.
    have hstrict :
        ((ids.dedup.filter
            (fun x => decide (0 < (relaxStep uLevel st v).indeg x))).length) + 1 ≤
        (ids.dedup.filter (fun x => decide (0 < st.indeg x))).length := by
      apply length_filter_strict _ _ _ v hvd
      · simp [relaxStep, hpush]
      · have : (0 : Int) < st.indeg v := by omega
        simp [this]
      · intro x _ hx
        by_cases hxv : x = v
        · subst hxv
          simp [relaxStep, hpush] at hx
        · simp only [relaxStep, if_neg hxv] at hx
          exact hx
    simp only [topoMeasure, relaxStep, if_pos hpush, List.length_append,
      List.length_cons, List.length_nil]
    have h2 := hstrict
    simp only [relaxStep] at h2
    omega
  · -- no push: the queue is unchanged and in-degrees only decrease.
    have hmono :
        ((ids.dedup.filter
            (fun x => decide (0 < (relaxStep uLevel st v).indeg x))).length) ≤
        (ids.dedup.filter (fun x => decide (0 < st.indeg x))).length := by
      apply length_filter_mono
      intro x _ hx
      by_cases hxv : x = v
      · subst hxv
        simp only [relaxStep, if_pos rfl, decide_eq_true_eq] at hx
        have : (0 : Int) < st.indeg x := by omega
        simp [this]
      · simp only [relaxStep, if_neg hxv] at hx
        exact hx
    simp only [topoMeasure, relaxStep, if_neg hpush]
    have h2 := hmono
    simp only [relaxStep] at h2
    omega

theorem processEdges_measure (ids : List String) (uLevel : Nat)
    (vs : List String) (st : TopoState) (hvs : ∀ v ∈ vs, v ∈ ids) :
    topoMeasure ids (processEdges uLevel vs st) ≤ topoMeasure ids st := by
  induction vs generalizing st with
  | nil => simp [processEdges]
  | cons v rest ih =>
    have h1 := relaxStep_measure ids uLevel st v (hvs v (List.mem_cons_self _ _))
    have h2 := ih (relaxStep uLevel st v)
      (fun x hx => hvs x (List.mem_cons_of_mem _ hx))
    calc topoMeasure ids (processEdges uLevel (v :: rest) st)
        = topoMeasure ids (processEdges uLevel rest (relaxStep uLevel st v)) := rfl
      _ ≤ topoMeasure ids (relaxStep uLevel st v) := h2
      _ ≤ topoMeasure ids st := h1

theorem topoLoop_drains (adj : String → List String) (ids : List String)
    (hadj : ∀ u, ∀ v ∈ adj u, v ∈ ids) :
    ∀ (fuel : Nat) (st : TopoState), topoMeasure ids st ≤ fuel →
      (topoLoop adj fuel st).q = [] := by
  intro fuel
  induction fuel with
  | zero =>
    intro st h
    have : st.q.length = 0 := by
      have := h
      simp only [topoMeasure] at this
      omega
    simpa [topoLoop, List.length_eq_zero] using this
  | succ n ih =>
    intro st h
    match hq : st.q with
    | [] => simp [topoLoop, hq]
    | u :: rest =>
      have hstep : topoMeasure ids
          (processEdges (st.levelOf u) (adj u) { st with q := rest }) ≤ n := by
        have h1 := processEdges_measure ids (st.levelOf u) (adj u)
          { st with q := rest } (hadj u)
        have h2 : topoMeasure ids ({ st with q := rest } : TopoState) + 1 =
            topoMeasure ids st := by
          simp only [topoMeasure, hq, List.length_cons]
          omega
        omega
      simpa [topoLoop, hq] using ih _ hstep

theorem parentEdges_mem (ids : List String) (deps : List Dependency)
    (e : String × String) (he : e ∈ parentEdges ids deps) :
    e.1 ∈ ids ∧ e.2 ∈ ids := by
  simp only [parentEdges, List.mem_map, List.mem_filter, Bool.and_eq_true] at he
  obtain ⟨d, ⟨_, hs, ht⟩, rfl⟩ := he
  exact ⟨List.mem_of_elem_eq_true hs, List.mem_of_elem_eq_true ht⟩

theorem adjOf_mem (edges : List (String × String)) (u v : String) :
    v ∈ adjOf edges u ↔ (u, v) ∈ edges := by
  simp only [adjOf, List.mem_map, List.mem_filter, decide_eq_true_eq]
  constructor
  · rintro ⟨e, ⟨he, h1⟩, h2⟩
    have : e = (u, v) := by
      cases e
      simp_all
    rwa [this] at he
  · intro h
    exact ⟨(u, v), ⟨h, rfl⟩, rfl⟩

theorem initMeasure_le (ids : List String) (edges : List (String × String)) :
    topoMeasure ids (initTopoState ids edges) ≤ topoFuel ids := by
  simp only [topoMeasure, initTopoState, topoFuel, seedQueue]
  have h1 := List.length_filter_le
    (fun id => decide (indeg0Of edges id = 0)) ids
  have h2 : (ids.dedup.filter (fun v => decide (0 < indeg0Of edges v))).length ≤
      ids.length :=
    le_trans (List.length_filter_le _ _)
      (List.Sublist.length_le (List.dedup_sublist ids))
  omega

/-- The worklist loop of the leveler, run on the restricted parent-edge
graph with fuel `2 * |ids|`, always drains its queue: the source's
unbounded `while (q.length)` loop terminates, and the fuelled embedding
computes its exact result. -/
theorem topoLoop_drains_queue (ids : List String) (deps : List Dependency) :
    (topoLoop (adjOf (parentEdges ids deps)) (topoFuel ids)
      (initTopoState ids (parentEdges ids deps))).q = [] := by
  apply topoLoop_drains _ ids _ _ _ (initMeasure_le ids (parentEdges ids deps))
  intro u v hv
  exact (parentEdges_mem ids deps _ ((adjOf_mem _ u v).mp hv)).2

/-- **C5** (counterexample).  Node set `a,b,c,d` with parent/subtask edges
`a→b` and the cycle `c→d`, `d→c`: the subgraph contains a cycle, yet the
leveler assigns node `b` level 1 and reports maxLevel 1 — not the all-zero
flat layout the claim asserts for every cycle-containing task set.  (The
flat fallback of lines 124-127 fires only when *no* node has in-degree
zero.) -/
theorem c5_counterexample :
    (computeTopoLevels
      [⟨"a", ⟨0, 0⟩, ⟨"a", ""⟩, "task-node", "task", 180, none, none, none⟩,
       ⟨"b", ⟨0, 0⟩, ⟨"b", ""⟩, "task-node", "task", 180, none, none, none⟩,
       ⟨"c", ⟨0, 0⟩, ⟨"c", ""⟩, "task-node", "task", 180, none, none, none⟩,
       ⟨"d", ⟨0, 0⟩, ⟨"d", ""⟩, "task-node", "task", 180, none, none, none⟩]
      [⟨"a", "b", "parent task-subtask", "", ""⟩,
       ⟨"c", "d", "parent task-subtask", "", ""⟩,
       ⟨"d", "c", "parent task-subtask", "", ""⟩]).1 "b" = 1 ∧
    (computeTopoLevels
      [⟨"a", ⟨0, 0⟩, ⟨"a", ""⟩, "task-node", "task", 180, none, none, none⟩,
       ⟨"b", ⟨0, 0⟩, ⟨"b", ""⟩, "task-node", "task", 180, none, none, none⟩,
       ⟨"c", ⟨0, 0⟩, ⟨"c", ""⟩, "task-node", "task", 180, none, none, none⟩,
       ⟨"d", ⟨0, 0⟩, ⟨"d", ""⟩, "task-node", "task", 180, none, none, none⟩]
      [⟨"a", "b", "parent task-subtask", "", ""⟩,
       ⟨"c", "d", "parent task-subtask", "", ""⟩,
       ⟨"d", "c", "parent task-subtask", "", ""⟩]).2 = 1 := by
  decide

/-- **C5** (amended).  For every task set the leveler terminates — the
worklist loop drains its queue within the `2 * |ids|` fuel — and whenever
the parent/subtask subgraph restricted to known ids has no zero-in-degree
node (in particular when it is one big cycle, or the node set is empty),
every node is assigned level 0 and maxLevel is 0. -/
theorem c5_leveler_terminates_and_flat_fallback
    (nodes : List GraphNode) (deps : List Dependency) :
    (topoLoop (adjOf (parentEdges (nodeIds nodes) deps)) (topoFuel (nodeIds nodes))
      (initTopoState (nodeIds nodes) (parentEdges (nodeIds nodes) deps))).q = [] ∧
    (seedQueue (nodeIds nodes) (parentEdges (nodeIds nodes) deps) = [] →
      computeTopoLevels nodes deps = (fun _ => 0, 0)) := by
  refine ⟨topoLoop_drains_queue _ _, ?_⟩
  intro h
  simp [computeTopoLevels, computeTopoLevelsIds, h]

/-- Witness for `c5_leveler_terminates_and_flat_fallback` at the pure
two-cycle `c→d`, `d→c`: the loop drains and the result is the flat
all-zero assignment. -/
theorem c5_leveler_terminates_witness :
    (topoLoop
      (adjOf (parentEdges
        (nodeIds
          [⟨"c", ⟨0, 0⟩, ⟨"c", ""⟩, "task-node", "task", 180, none, none, none⟩,
           ⟨"d", ⟨0, 0⟩, ⟨"d", ""⟩, "task-node", "task", 180, none, none, none⟩])
        [⟨"c", "d", "parent task-subtask", "", ""⟩,
         ⟨"d", "c", "parent task-subtask", "", ""⟩]))
      (topoFuel (nodeIds
        [⟨"c", ⟨0, 0⟩, ⟨"c", ""⟩, "task-node", "task", 180, none, none, none⟩,
         ⟨"d", ⟨0, 0⟩, ⟨"d", ""⟩, "task-node", "task", 180, none, none, none⟩]))
      (initTopoState
        (nodeIds
          [⟨"c", ⟨0, 0⟩, ⟨"c", ""⟩, "task-node", "task", 180, none, none, none⟩,
           ⟨"d", ⟨0, 0⟩, ⟨"d", ""⟩, "task-node", "task", 180, none, none, none⟩])
        (parentEdges
          (nodeIds
            [⟨"c", ⟨0, 0⟩, ⟨"c", ""⟩, "task-node", "task", 180, none, none, none⟩,
             ⟨"d", ⟨0, 0⟩, ⟨"d", ""⟩, "task-node", "task", 180, none, none, none⟩])
          [⟨"c", "d", "parent task-subtask", "", ""⟩,
           ⟨"d", "c", "parent task-subtask", "", ""⟩]))).q = [] ∧
    computeTopoLevels
      [⟨"c", ⟨0, 0⟩, ⟨"c", ""⟩, "task-node", "task", 180, none, none, none⟩,
       ⟨"d", ⟨0, 0⟩, ⟨"d", ""⟩, "task-node", "task", 180, none, none, none⟩]
      [⟨"c", "d", "parent task-subtask", "", ""⟩,
       ⟨"d", "c", "parent task-subtask", "", ""⟩] = (fun _ => 0, 0) :=
  ⟨(c5_leveler_terminates_and_flat_fallback _ _).1,
   (c5_leveler_terminates_and_flat_fallback _ _).2 (by decide)⟩

/-! ### Correctness of the leveler on DAG inputs (towards C4) -/

theorem countP_split {α : Type} (l : List α) (p q : α → Bool) :
    l.countP p =
      l.countP (fun a => p a && q a) + l.countP (fun a => p a && !q a) := by
  induction l with
  | nil => simp
  | cons a t ih =>
    by_cases hp : p a = true <;> by_cases hq : q a = true <;>
      simp [List.countP_cons, hp, hq, ih] <;> omega

theorem adjOf_count (edges : List (String × String)) (u v : String) :
    ((adjOf edges u).count v : Int) =
      (edges.countP (fun e => decide (e.1 = u ∧ e.2 = v)) : Int) := by
  have h1 : (adjOf edges u).count v =
      (edges.filter (fun e => decide (e.1 = u))).countP (fun e => e.2 == v) := by
    simp [adjOf, List.count, List.countP_map]
    rfl
  have h2 : (edges.filter (fun e => decide (e.1 = u))).countP (fun e => e.2 == v) =
      edges.countP (fun e => decide (e.1 = u ∧ e.2 = v)) := by
    rw [List.countP_filter]
    apply List.countP_congr
    intro e _
    by_cases h : e.1 = u <;> by_cases h' : e.2 = v <;> simp [h, h']
  rw [h1, h2]

theorem processEdges_level_mono (uLevel : Nat) (vs : List String)
    (st : TopoState) (x : String) :
    st.levelOf x ≤ (processEdges uLevel vs st).levelOf x := by
  induction vs generalizing st with
  | nil => exact le_refl _
  | cons v rest ih =>
    have h1 : st.levelOf x ≤ (relaxStep uLevel st v).levelOf x := by
      simp only [relaxStep]
      by_cases hxv : x = v
      · subst hxv
        simp
      · simp [hxv]
    exact le_trans h1 (ih _)

theorem processEdges_level_relaxed (uLevel : Nat) (vs : List String)
    (st : TopoState) (v : String) (hv : v ∈ vs) :
    uLevel + 1 ≤ (processEdges uLevel vs st).levelOf v := by
  induction vs generalizing st with
  | nil => cases hv
  | cons w rest ih =>
    rcases List.mem_cons.mp hv with rfl | hvr
    · by_cases hvrest : v ∈ rest
      · exact ih _ hvrest
      · have h1 : uLevel + 1 ≤ (relaxStep uLevel st v).levelOf v := by
          simp [relaxStep]
        exact le_trans h1 (processEdges_level_mono _ _ _ _)
    · exact ih _ hvr

theorem processEdges_untouched (uLevel : Nat) (vs : List String)
    (st : TopoState) (x : String) (hx : x ∉ vs) :
    (processEdges uLevel vs st).levelOf x = st.levelOf x ∧
    (processEdges uLevel vs st).indeg x = st.indeg x := by
  induction vs generalizing st with
  | nil => exact ⟨rfl, rfl⟩
  | cons v rest ih =>
    have hxv : ¬ x = v := fun h => hx (h ▸ List.mem_cons_self v rest)
    have hxr : x ∉ rest := fun h => hx (List.mem_cons_of_mem _ h)
    have h := ih (relaxStep uLevel st v) hxr
    simpa [relaxStep, hxv] using h

theorem foldInv_step (ids : List String) (edges : List (String × String))
    (done : List String) (uLevel : Nat) (v : String) (pend : List String)
    (st : TopoState) (hinv : FoldInv ids edges done (v :: pend) st) :
    FoldInv ids edges done pend (relaxStep uLevel st v) := by
  obtain ⟨hnd, hdeg, hzero, hqueued⟩ := hinv
  -- v still has its pending in-edge occurrence, so its in-degree is positive
  -- and it can be in neither the queue nor the done list.
  have hvpos : 0 < st.indeg v := by
    have h := hdeg v
    have hc : 1 ≤ (v :: pend).count v := by
      simp [List.count_cons]
    have hcp : (0 : Int) ≤ (edges.countP (fun e => decide (e.2 = v ∧ e.1 ∉ done)) : Int) := by
      exact_mod_cast Nat.zero_le _
    omega
  have hvnotin : ¬ (v ∈ st.q ∨ v ∈ done) := by
    intro h
    have := hzero v h
    omega
  refine ⟨?_, ?_, ?_, ?_⟩
  · -- Nodup
    simp only [relaxStep]
    by_cases hpush : st.indeg v - 1 = 0
    · rw [if_pos hpush, ← List.append_assoc]
      rw [List.nodup_append]
      refine ⟨hnd, List.nodup_singleton v, ?_⟩
      intro a ha hav
      simp only [List.mem_singleton] at hav
      subst hav
      rcases List.mem_append.mp ha with h | h
      · exact hvnotin (Or.inr h)
      · exact hvnotin (Or.inl h)
    · rw [if_neg hpush]
      exact hnd
  · -- in-degree accounting
    intro x
    by_cases hxv : x = v
    · subst hxv
      have h := hdeg x
      have hcount : ((x :: pend).count x : Int) = (pend.count x : Int) + 1 := by
        simp [List.count_cons]
      simp only [relaxStep, eq_self_iff_true, if_true]
      omega
    · have h := hdeg x
      have hcount : ((v :: pend).count x : Int) = (pend.count x : Int) := by
        simp [List.count_cons, hxv]
      simp only [relaxStep, if_neg hxv]
      omega
  · -- queued or done implies in-degree zero
    intro x hx
    simp only [relaxStep] at hx ⊢
    by_cases hxv : x = v
    · subst hxv
      rw [if_pos rfl]
      rcases hx with hxq | hxd
      · by_cases hpush : st.indeg x - 1 = 0
        · exact hpush
        · rw [if_neg hpush] at hxq
          exact absurd (Or.inl hxq) hvnotin
      · exact absurd (Or.inr hxd) hvnotin
    · rw [if_neg hxv]
      apply hzero
      rcases hx with hxq | hxd
      · left
        by_cases hpush : st.indeg v - 1 = 0
        · rw [if_pos hpush] at hxq
          rcases List.mem_append.mp hxq with h | h
          · exact h
          · simp only [List.mem_singleton] at h
            exact absurd h hxv
        · rwa [if_neg hpush] at hxq
      · exact Or.inr hxd
  · -- in-degree zero implies queued or done
    intro x hxids hx
    simp only [relaxStep] at hx ⊢
    by_cases hxv : x = v
    · subst hxv
      rw [if_pos rfl] at hx
      rw [if_pos hx]
      left
      exact List.mem_append.mpr (Or.inr (List.mem_singleton.mpr rfl))
    · rw [if_neg hxv] at hx
      rcases hqueued x hxids hx with h | h
      · left
        by_cases hpush : st.indeg v - 1 = 0
        · rw [if_pos hpush]
          exact List.mem_append.mpr (Or.inl h)
        · rwa [if_neg hpush]
      · exact Or.inr h

theorem foldInv_processEdges (ids : List String) (edges : List (String × String))
    (done : List String) (uLevel : Nat) :
    ∀ (pend : List String) (st : TopoState),
      FoldInv ids edges done pend st →
      FoldInv ids edges done [] (processEdges uLevel pend st) := by
  intro pend
  induction pend with
  | nil => intro st h; exact h
  | cons v rest ih =>
    intro st h
    exact ih _ (foldInv_step ids edges done uLevel v rest st h)

theorem topoLoopG_fst (adj : String → List String) :
    ∀ (fuel : Nat) (st : TopoState) (done : List String),
      (topoLoopG adj fuel st done).1 = topoLoop adj fuel st := by
  intro fuel
  induction fuel with
  | zero => intro st done; rfl
  | succ n ih =>
    intro st done
    match hq : st.q with
    | [] => simp [topoLoopG, topoLoop, hq]
    | u :: rest => simp [topoLoopG, topoLoop, hq, ih]

theorem topoInv_step (ids : List String) (edges : List (String × String))
    (st : TopoState) (done : List String) (u : String) (rest : List String)
    (hq : st.q = u :: rest) (hinv : TopoInv ids edges st done) :
    TopoInv ids edges
      (processEdges (st.levelOf u) (adjOf edges u) { st with q := rest })
      (done ++ [u]) := by
  obtain ⟨hnd, hdeg, hzero, hqueued, hlev⟩ := hinv
  have hu_q : u ∈ st.q := by rw [hq]; exact List.mem_cons_self _ _
  have hu_notdone : u ∉ done := by
    intro hu
    rw [List.nodup_append] at hnd
    exact hnd.2.2 hu hu_q
  have hfold_in : FoldInv ids edges (done ++ [u]) (adjOf edges u)
      { st with q := rest } := by
    refine ⟨?_, ?_, ?_, ?_⟩
    · have heq : (done ++ [u]) ++ rest = done ++ (u :: rest) := by simp
      show ((done ++ [u]) ++ rest).Nodup
      rw [heq, ← hq]
      exact hnd
    · intro v
      have h := hdeg v
      have hsplit := countP_split edges
        (fun e => decide (e.2 = v ∧ e.1 ∉ done)) (fun e => decide (e.1 = u))
      have h1 : edges.countP
          (fun e => decide (e.2 = v ∧ e.1 ∉ done) && decide (e.1 = u)) =
          edges.countP (fun e => decide (e.1 = u ∧ e.2 = v)) := by
        apply List.countP_congr
        intro e _
        by_cases h2 : e.2 = v <;> by_cases h3 : e.1 = u <;>
          simp [h2, h3, hu_notdone]
      have h2 : edges.countP
          (fun e => decide (e.2 = v ∧ e.1 ∉ done) && !decide (e.1 = u)) =
          edges.countP (fun e => decide (e.2 = v ∧ e.1 ∉ done ++ [u])) := by
        apply List.countP_congr
        intro e _
        by_cases h3 : e.2 = v <;> by_cases h4 : e.1 = u <;>
          by_cases h5 : e.1 ∈ done <;> simp [h3, h4, h5]
      have hadj := adjOf_count edges u v
      show st.indeg v =
        (edges.countP (fun e => decide (e.2 = v ∧ e.1 ∉ done ++ [u])) : Int) +
          ((adjOf edges u).count v : Int)
      omega
    · intro v hv
      apply hzero
      rcases hv with hvq | hvd
      · left
        rw [hq]
        exact List.mem_cons_of_mem _ hvq
      · rcases List.mem_append.mp hvd with h | h
        · exact Or.inr h
        · left
          rw [hq]
          simp only [List.mem_singleton] at h
          subst h
          exact List.mem_cons_self _ _
    · intro x hx hdeg0
      rcases hqueued x hx hdeg0 with h | h
      · rw [hq] at h
        rcases List.mem_cons.mp h with rfl | h2
        · exact Or.inr (List.mem_append.mpr (Or.inr (by simp)))
        · exact Or.inl h2
      · exact Or.inr (List.mem_append.mpr (Or.inl h))
  have hfold := foldInv_processEdges ids edges (done ++ [u]) (st.levelOf u)
    (adjOf edges u) _ hfold_in
  obtain ⟨hnd', hdeg', hzero', hqueued'⟩ := hfold
  have hqzero_u : st.indeg u = 0 := hzero u (Or.inl hu_q)
  have hcount_u : edges.countP (fun e => decide (e.2 = u ∧ e.1 ∉ done)) = 0 := by
    have h := hdeg u
    omega
  have hu_not_adj_u : u ∉ adjOf edges u := by
    intro hmem
    have hedge : (u, u) ∈ edges := (adjOf_mem edges u u).mp hmem
    have h := List.countP_eq_zero.mp hcount_u _ hedge
    simp [hu_notdone] at h
  refine ⟨hnd', ?_, hzero', hqueued', ?_⟩
  · intro v
    have h := hdeg' v
    simpa using h
  · intro e he hdone'
    rcases List.mem_append.mp hdone' with hdone | hu_eq
    · -- an edge out of an earlier-dequeued node: its source level is frozen
      -- (the source is not adjacent to u) and its target level only grows.
      have he1_zero : st.indeg e.1 = 0 := hzero e.1 (Or.inr hdone)
      have hcount_e1 :
          edges.countP (fun ed => decide (ed.2 = e.1 ∧ ed.1 ∉ done)) = 0 := by
        have h := hdeg e.1
        omega
      have he1_not_adj : e.1 ∉ adjOf edges u := by
        intro hmem
        have hedge : (u, e.1) ∈ edges := (adjOf_mem edges u e.1).mp hmem
        have h := List.countP_eq_zero.mp hcount_e1 _ hedge
        simp [hu_notdone] at h
      have hfix := (processEdges_untouched (st.levelOf u) (adjOf edges u)
        { st with q := rest } e.1 he1_not_adj).1
      have hmono := processEdges_level_mono (st.levelOf u) (adjOf edges u)
        { st with q := rest } e.2
      have hold := hlev e he hdone
      have hlevI : ({ st with q := rest } : TopoState).levelOf = st.levelOf := rfl
      rw [hlevI] at hfix hmono
      omega
    · -- an edge out of u itself: its target was just relaxed to at least
      -- level(u) + 1, and u's own level is untouched (no self-loop can
      -- reach the queue).
      simp only [List.mem_singleton] at hu_eq
      have he2_adj : e.2 ∈ adjOf edges u := by
        apply (adjOf_mem edges u e.2).mpr
        have heq : (u, e.2) = e := by
          cases e
          simp_all
        rwa [heq]
      have hrelax := processEdges_level_relaxed (st.levelOf u) (adjOf edges u)
        { st with q := rest } e.2 he2_adj
      have hfix := (processEdges_untouched (st.levelOf u) (adjOf edges u)
        { st with q := rest } u hu_not_adj_u).1
      have hlevI : ({ st with q := rest } : TopoState).levelOf = st.levelOf := rfl
      rw [hlevI] at hfix
      rw [hu_eq]
      omega

theorem topoLoopG_inv (ids : List String) (edges : List (String × String)) :
    ∀ (fuel : Nat) (st : TopoState) (done : List String),
      TopoInv ids edges st done →
      TopoInv ids edges (topoLoopG (adjOf edges) fuel st done).1
        (topoLoopG (adjOf edges) fuel st done).2 := by
  intro fuel
  induction fuel with
  | zero => intro st done h; exact h
  | succ n ih =>
    intro st done h
    match hq : st.q with
    | [] =>
      have heq : topoLoopG (adjOf edges) (n + 1) st done = (st, done) := by
        simp [topoLoopG, hq]
      rw [heq]
      exact h
    | u :: rest =>
      have heq : topoLoopG (adjOf edges) (n + 1) st done =
          topoLoopG (adjOf edges) n
            (processEdges (st.levelOf u) (adjOf edges u) { st with q := rest })
            (done ++ [u]) := by
        simp [topoLoopG, hq]
      rw [heq]
      exact ih _ _ (topoInv_step ids edges st done u rest hq h)

theorem topoInv_init (ids : List String) (edges : List (String × String))
    (hnd : ids.Nodup) :
    TopoInv ids edges (initTopoState ids edges) [] := by
  refine ⟨?_, ?_, ?_, ?_, ?_⟩
  · simpa [initTopoState, seedQueue] using hnd.filter _
  · intro v
    show indeg0Of edges v =
      (edges.countP (fun e => decide (e.2 = v ∧ e.1 ∉ ([] : List String))) : Int)
    simp only [indeg0Of]
    congr 1
    apply List.countP_congr
    intro e _
    simp
  · intro v hv
    rcases hv with hvq | hvd
    · simp only [initTopoState, seedQueue] at hvq
      have h := (List.mem_filter.mp hvq).2
      simpa using h
    · cases hvd
  · intro x hx h0
    left
    simp only [initTopoState] at h0
    simp [initTopoState, seedQueue, List.mem_filter, hx, h0]
  · intro e _ hdone
    cases hdone

theorem exists_min_rank {α : Type} (rank : α → Nat) :
    ∀ (l : List α), l ≠ [] → ∃ u ∈ l, ∀ w ∈ l, rank u ≤ rank w := by
  intro l
  induction l with
  | nil => intro h; exact absurd rfl h
  | cons a t ih =>
    intro _
    by_cases ht : t = []
    · subst ht
      refine ⟨a, List.mem_cons_self _ _, ?_⟩
      intro w hw
      simp only [List.mem_singleton] at hw
      subst hw
      exact le_refl _
    · obtain ⟨u, hu, hmin⟩ := ih ht
      by_cases hr : rank a ≤ rank u
      · refine ⟨a, List.mem_cons_self _ _, ?_⟩
        intro w hw
        rcases List.mem_cons.mp hw with rfl | hw
        · exact le_refl _
        · exact le_trans hr (hmin w hw)
      · refine ⟨u, List.mem_cons_of_mem _ hu, ?_⟩
        intro w hw
        rcases List.mem_cons.mp hw with rfl | hw
        · exact le_of_not_le hr
        · exact hmin w hw

theorem topo_complete (ids : List String) (edges : List (String × String))
    (hedge : ∀ e ∈ edges, e.1 ∈ ids ∧ e.2 ∈ ids)
    (rank : String → Nat) (hrank : ∀ e ∈ edges, rank e.1 < rank e.2)
    (st : TopoState) (done : List String) (hinv : TopoInv ids edges st done)
    (hq : st.q = []) :
    ∀ x ∈ ids, x ∈ done := by
  obtain ⟨hnd, hdeg, hzero, hqueued, hlev⟩ := hinv
  have aux : ∀ n, ∀ x ∈ ids, rank x < n → x ∈ done := by
    intro n
    induction n with
    | zero => intro x _ h; omega
    | succ m ih =>
      intro x hx hr
      have hcount : edges.countP (fun e => decide (e.2 = x ∧ e.1 ∉ done)) = 0 := by
        rw [List.countP_eq_zero]
        intro e he
        simp only [decide_eq_true_eq, not_and, not_not]
        intro h2
        have h3 := hrank e he
        rw [h2] at h3
        have h4 : rank e.1 < m := by omega
        exact ih e.1 (hedge e he).1 h4
      have h0 : st.indeg x = 0 := by
        have h := hdeg x
        omega
      rcases hqueued x hx h0 with h | h
      · rw [hq] at h
        cases h
      · exact h
  intro x hx
  exact aux (rank x + 1) x hx (Nat.lt_succ_self _)

/-- **C4** (confirmed).  For every node list with distinct ids and every
dependency set whose parent/subtask edges restricted to known ids form a
DAG — acyclicity taken, as usual, as the existence of a strict ranking
`rank` increasing along every such edge — the level mapping satisfies
`level(target) ≥ level(source) + 1` for every restricted parent/subtask
edge; in particular no child is leveled at or above any of its parents. -/
theorem c4_levels_respect_parent_edges (nodes : List GraphNode)
    (deps : List Dependency) (hnd : (nodeIds nodes).Nodup)
    (rank : String → Nat)
    (hdag : ∀ e ∈ parentEdges (nodeIds nodes) deps, rank e.1 < rank e.2) :
    ∀ e ∈ parentEdges (nodeIds nodes) deps,
      (computeTopoLevels nodes deps).1 e.1 + 1 ≤
        (computeTopoLevels nodes deps).1 e.2 := by
  intro e he
  have hedge : ∀ e' ∈ parentEdges (nodeIds nodes) deps,
      e'.1 ∈ nodeIds nodes ∧ e'.2 ∈ nodeIds nodes :=
    fun e' h => parentEdges_mem (nodeIds nodes) deps e' h
  by_cases hseed :
      seedQueue (nodeIds nodes) (parentEdges (nodeIds nodes) deps) = []
  · -- A DAG with an edge has a minimal-rank node, which is a seed, so the
    -- seed queue cannot be empty.
    exfalso
    have hids_ne : nodeIds nodes ≠ [] := by
      intro h0
      have h := (hedge e he).1
      rw [h0] at h
      cases h
    obtain ⟨u, hu, hmin⟩ := exists_min_rank rank (nodeIds nodes) hids_ne
    have hdeg0 : indeg0Of (parentEdges (nodeIds nodes) deps) u = 0 := by
      simp only [indeg0Of]
      have hz : (parentEdges (nodeIds nodes) deps).countP
          (fun ed => decide (ed.2 = u)) = 0 := by
        rw [List.countP_eq_zero]
        intro e' he'
        simp only [decide_eq_true_eq]
        intro h2
        have h3 := hdag e' he'
        rw [h2] at h3
        have h4 := hmin e'.1 (hedge e' he').1
        omega
      rw [hz]
      rfl
    have hmem : u ∈ seedQueue (nodeIds nodes) (parentEdges (nodeIds nodes) deps) := by
      simp [seedQueue, List.mem_filter, hu, hdeg0]
    rw [hseed] at hmem
    cases hmem
  · have hinit := topoInv_init (nodeIds nodes) (parentEdges (nodeIds nodes) deps) hnd
    have hfin := topoLoopG_inv (nodeIds nodes) (parentEdges (nodeIds nodes) deps)
      (topoFuel (nodeIds nodes))
      (initTopoState (nodeIds nodes) (parentEdges (nodeIds nodes) deps)) [] hinit
    have hbr := topoLoopG_fst (adjOf (parentEdges (nodeIds nodes) deps))
      (topoFuel (nodeIds nodes))
      (initTopoState (nodeIds nodes) (parentEdges (nodeIds nodes) deps)) []
    have hq' : (topoLoopG (adjOf (parentEdges (nodeIds nodes) deps))
        (topoFuel (nodeIds nodes))
        (initTopoState (nodeIds nodes) (parentEdges (nodeIds nodes) deps)) []).1.q = [] := by
      rw [hbr]
      exact topoLoop_drains_queue (nodeIds nodes) deps
    have hall := topo_complete (nodeIds nodes) (parentEdges (nodeIds nodes) deps)
      hedge rank hdag _ _ hfin hq'
    have hdone := hall e.1 (hedge e he).1
    have hlev := hfin.2.2.2.2 e he hdone
    have hcompute : computeTopoLevels nodes deps =
        ((topoLoop (adjOf (parentEdges (nodeIds nodes) deps))
            (topoFuel (nodeIds nodes))
            (initTopoState (nodeIds nodes) (parentEdges (nodeIds nodes) deps))).levelOf,
         (topoLoop (adjOf (parentEdges (nodeIds nodes) deps))
            (topoFuel (nodeIds nodes))
            (initTopoState (nodeIds nodes) (parentEdges (nodeIds nodes) deps))).maxLevel) := by
      simp only [computeTopoLevels, computeTopoLevelsIds, if_neg hseed]
    rw [hcompute]
    have hlev' := hlev
    rw [hbr] at hlev'
    exact hlev'

/-- Witness for `c4_levels_respect_parent_edges`: the two-task chain
`1 → 2` with ranking `1 ↦ 0, 2 ↦ 1` gets levels `0` and `1`. -/
theorem c4_levels_respect_parent_edges_witness :
    (nodeIds
      [⟨"1", ⟨0, 0⟩, ⟨"one", ""⟩, "task-node", "task", 180, none, none, none⟩,
       ⟨"2", ⟨0, 0⟩, ⟨"two", ""⟩, "task-node", "task", 180, none, none, none⟩]).Nodup ∧
    (∀ e ∈ parentEdges
        (nodeIds
          [⟨"1", ⟨0, 0⟩, ⟨"one", ""⟩, "task-node", "task", 180, none, none, none⟩,
           ⟨"2", ⟨0, 0⟩, ⟨"two", ""⟩, "task-node", "task", 180, none, none, none⟩])
        [⟨"1", "2", "parent task-subtask", "", ""⟩],
      (fun s => if s = "2" then 1 else 0 : String → Nat) e.1 <
        (fun s => if s = "2" then 1 else 0 : String → Nat) e.2) ∧
    (∀ e ∈ parentEdges
        (nodeIds
          [⟨"1", ⟨0, 0⟩, ⟨"one", ""⟩, "task-node", "task", 180, none, none, none⟩,
           ⟨"2", ⟨0, 0⟩, ⟨"two", ""⟩, "task-node", "task", 180, none, none, none⟩])
        [⟨"1", "2", "parent task-subtask", "", ""⟩],
      (computeTopoLevels
        [⟨"1", ⟨0, 0⟩, ⟨"one", ""⟩, "task-node", "task", 180, none, none, none⟩,
         ⟨"2", ⟨0, 0⟩, ⟨"two", ""⟩, "task-node", "task", 180, none, none, none⟩]
        [⟨"1", "2", "parent task-subtask", "", ""⟩]).1 e.1 + 1 ≤
      (computeTopoLevels
        [⟨"1", ⟨0, 0⟩, ⟨"one", ""⟩, "task-node", "task", 180, none, none, none⟩,
         ⟨"2", ⟨0, 0⟩, ⟨"two", ""⟩, "task-node", "task", 180, none, none, none⟩]
        [⟨"1", "2", "parent task-subtask", "", ""⟩]).1 e.2) :=
  ⟨by decide, by decide,
   c4_levels_respect_parent_edges _ _ (by decide)
     (fun s => if s = "2" then 1 else 0) (by decide)⟩

/-! ### Layout idempotence (towards C8)

The layout engine reads only the ids (for levels) and the labels (for the
in-band sort) of its input nodes and overwrites exactly the fields it
computes (`position`, `sourcePosition`, `targetPosition`), so running it on
its own output reproduces that output. -/

theorem enumFrom_map_enumFrom {α β : Type} (f : Nat × α → β) :
    ∀ (l : List α) (n : Nat),
      ((List.enumFrom n l).map f).enumFrom n =
        (List.enumFrom n l).map (fun p => (p.1, f p)) := by
  intro l
  induction l with
  | nil => intro n; rfl
  | cons a t ih =>
    intro n
    show (n, f (n, a)) :: ((List.enumFrom (n + 1) t).map f).enumFrom (n + 1) =
      (n, f (n, a)) :: (List.enumFrom (n + 1) t).map (fun p => (p.1, f p))
    rw [ih]

theorem enum_map_pair {α β : Type} (f : Nat × α → β) (l : List α) :
    (l.enum.map f).enum = l.enum.map (fun p => (p.1, f p)) :=
  enumFrom_map_enumFrom f l 0

theorem applyAssignment_id (assign : List (Nat × Pos)) (p : Nat × GraphNode) :
    (applyAssignment assign p).id = p.2.id ∧
    (applyAssignment assign p).data = p.2.data := by
  rcases h : assign.lookup p.1 with _ | pos <;> simp [applyAssignment, h]

theorem applyAssignment_twice (assign : List (Nat × Pos)) (p : Nat × GraphNode) :
    applyAssignment assign (p.1, applyAssignment assign p) =
      applyAssignment assign p := by
  obtain ⟨i, n⟩ := p
  rcases h : assign.lookup i with _ | pos <;> simp [applyAssignment, h]

theorem sortInsert_map {α β : Type} (cmp : α → α → Ordering)
    (cmp2 : β → β → Ordering) (F : α → β)
    (hc : ∀ a b, cmp2 (F a) (F b) = cmp a b) (x : α) :
    ∀ l : List α, sortInsert cmp2 (F x) (l.map F) = (sortInsert cmp x l).map F := by
  intro l
  induction l with
  | nil => rfl
  | cons y t ih =>
    show (if cmp2 (F y) (F x) = Ordering.gt then F x :: F y :: t.map F
          else F y :: sortInsert cmp2 (F x) (t.map F)) = _
    rw [hc]
    by_cases h : cmp y x = Ordering.gt
    · simp [sortInsert, h]
    · simp [sortInsert, h, ih]

theorem stableSortBy_map {α β : Type} (cmp : α → α → Ordering)
    (cmp2 : β → β → Ordering) (F : α → β)
    (hc : ∀ a b, cmp2 (F a) (F b) = cmp a b) (l : List α) :
    stableSortBy cmp2 (l.map F) = (stableSortBy cmp l).map F := by
  suffices h : ∀ acc : List α,
      List.foldl (fun acc x => sortInsert cmp2 x acc) (acc.map F) (l.map F) =
        (List.foldl (fun acc x => sortInsert cmp x acc) acc l).map F by
    simpa [stableSortBy] using h []
  induction l with
  | nil => intro acc; rfl
  | cons y t ih =>
    intro acc
    show List.foldl (fun acc x => sortInsert cmp2 x acc)
        (sortInsert cmp2 (F y) (acc.map F)) (t.map F) = _
    rw [sortInsert_map cmp cmp2 F hc]
    exact ih _

theorem layoutBucket_map (tagged : List (Nat × GraphNode))
    (levelOf : String → Nat) (lvl : Nat) (F : Nat × GraphNode → Nat × GraphNode)
    (hid : ∀ p, (F p).2.id = p.2.id)
    (hlabel : ∀ p, (F p).2.data.label = p.2.data.label) :
    layoutBucket (tagged.map F) levelOf lvl =
      (layoutBucket tagged levelOf lvl).map F := by
  unfold layoutBucket
  rw [List.filter_map]
  have hfil : tagged.filter ((fun p => decide (levelOf p.2.id = lvl)) ∘ F) =
      tagged.filter (fun p => decide (levelOf p.2.id = lvl)) := by
    apply List.filter_congr
    intro p _
    simp [Function.comp, hid p]
  rw [hfil]
  apply stableSortBy_map
  intro a b
  simp [labelCompare, hlabel]

theorem bandAssignments_map (sorted : List (Nat × GraphNode)) (lvl : Nat)
    (sliceHeight width : Int) (F : Nat × GraphNode → Nat × GraphNode)
    (htag : ∀ p, (F p).1 = p.1) :
    bandAssignments (sorted.map F) lvl sliceHeight width =
      bandAssignments sorted lvl sliceHeight width := by
  unfold bandAssignments
  simp only [List.length_map]
  rw [List.enum_map, List.map_map]
  congr 1
  funext q
  simp [Function.comp, Prod.map, htag]

theorem layoutAssignments_map (tagged : List (Nat × GraphNode))
    (levelOf : String → Nat) (levelCount : Nat) (sliceHeight width : Int)
    (F : Nat × GraphNode → Nat × GraphNode)
    (hid : ∀ p, (F p).2.id = p.2.id)
    (hlabel : ∀ p, (F p).2.data.label = p.2.data.label)
    (htag : ∀ p, (F p).1 = p.1) :
    layoutAssignments (tagged.map F) levelOf levelCount sliceHeight width =
      layoutAssignments tagged levelOf levelCount sliceHeight width := by
  unfold layoutAssignments
  congr 1
  funext lvl
  rw [layoutBucket_map tagged levelOf lvl F hid hlabel,
    bandAssignments_map _ _ _ _ F htag]

theorem nodeIds_map_applyAssignment (A : List (Nat × Pos)) (ns : List GraphNode) :
    nodeIds (ns.enum.map (applyAssignment A)) = nodeIds ns := by
  unfold nodeIds
  rw [List.map_map]
  have h : (fun x : GraphNode => x.id) ∘ applyAssignment A =
      fun p : Nat × GraphNode => p.2.id := by
    funext p
    exact (applyAssignment_id A p).1
  rw [h]
  have h2 : (fun p : Nat × GraphNode => p.2.id) =
      (fun n : GraphNode => n.id) ∘ Prod.snd := rfl
  rw [h2, ← List.map_map, List.enum_map_snd]

/-- **C8** (confirmed).  Layout is deterministic (it is a pure function of
its arguments) and idempotent: feeding its own output nodes back in, with
the same edges, dependencies and viewport, reproduces its output exactly —
it reads only node ids and labels, which it never changes, and overwrites
every field it computes. -/
theorem c8_layout_idempotent (nodes : List GraphNode) (allEdges : List GraphEdge)
    (deps : List Dependency) (vw vh : Int) :
    getLayoutedElements ((getLayoutedElements nodes allEdges deps vw vh).1)
        allEdges deps vw vh =
      getLayoutedElements nodes allEdges deps vw vh := by
  have hid : ∀ p : Nat × GraphNode,
      ((fun p => (p.1, applyAssignment (layoutAssignFor nodes deps vw vh) p))
          p : Nat × GraphNode).2.id = p.2.id :=
    fun p => (applyAssignment_id _ p).1
  have hlabel : ∀ p : Nat × GraphNode,
      ((fun p => (p.1, applyAssignment (layoutAssignFor nodes deps vw vh) p))
          p : Nat × GraphNode).2.data.label = p.2.data.label :=
    fun p => by
      have h := (applyAssignment_id (layoutAssignFor nodes deps vw vh) p).2
      simpa using congrArg NodeData.label h
  have htag : ∀ p : Nat × GraphNode,
      ((fun p => (p.1, applyAssignment (layoutAssignFor nodes deps vw vh) p))
          p : Nat × GraphNode).1 = p.1 :=
    fun p => rfl
  have henum :
      ((nodes.enum.map (applyAssignment (layoutAssignFor nodes deps vw vh))).enum) =
        nodes.enum.map
          (fun p => (p.1, applyAssignment (layoutAssignFor nodes deps vw vh) p)) :=
    enum_map_pair _ nodes
  have hids := nodeIds_map_applyAssignment (layoutAssignFor nodes deps vw vh) nodes
  have hlv : computeTopoLevels
      (nodes.enum.map (applyAssignment (layoutAssignFor nodes deps vw vh))) deps =
      computeTopoLevels nodes deps := by
    unfold computeTopoLevels
    rw [hids]
  have hA2 : layoutAssignFor
      (nodes.enum.map (applyAssignment (layoutAssignFor nodes deps vw vh)))
      deps vw vh = layoutAssignFor nodes deps vw vh := by
    conv_lhs => rw [layoutAssignFor]
    conv_rhs => rw [layoutAssignFor]
    rw [hlv, henum]
    exact layoutAssignments_map nodes.enum _ _ _ _ _ hid hlabel htag
  show ((((nodes.enum.map (applyAssignment (layoutAssignFor nodes deps vw vh)))).enum).map
      (applyAssignment (layoutAssignFor
        (nodes.enum.map (applyAssignment (layoutAssignFor nodes deps vw vh)))
        deps vw vh)),
      allEdges) =
    (nodes.enum.map (applyAssignment (layoutAssignFor nodes deps vw vh)), allEdges)
  rw [hA2, henum, List.map_map]
  have hcomp : (applyAssignment (layoutAssignFor nodes deps vw vh) ∘ fun p =>
      (p.1, applyAssignment (layoutAssignFor nodes deps vw vh) p)) =
      applyAssignment (layoutAssignFor nodes deps vw vh) := by
    funext p
    exact applyAssignment_twice (layoutAssignFor nodes deps vw vh) p
  rw [hcomp]

/-- **C1** (counterexample).  For the dependency
`⟨"1","2","parent task-subtask",_,_⟩` the emitted edge does have an arrow
marker: `markerEnd` is the closed-arrow marker (line 367 attaches it to
every non-feedback edge, parent edges included), so the claim's
"markerEnd and markerStart both absent" is false. -/
theorem c1_counterexample :
    ¬ ((buildEdge ⟨"1", "2", "parent task-subtask", "r", "s"⟩).markerEnd = none ∧
       (buildEdge ⟨"1", "2", "parent task-subtask", "r", "s"⟩).markerStart = none) := by
  intro h
  exact absurd h.1 (by decide)

/-- **C1** (amended).  A `parent task-subtask` dependency is rendered as a
straight line (`type = "straight"`) with dashed stroke (`"4 4"`), source
handle at the bottom anchor, target handle at the top anchor, visible,
with `markerStart` absent — but with `markerEnd` set to the closed-arrow
marker, like every other non-feedback edge. -/
theorem c1_parent_edge_presentation (dep : Dependency)
    (h : dep.data_flow = "parent task-subtask") :
    (buildEdge dep).type = "straight" ∧
    (buildEdge dep).style.strokeDasharray = some "4 4" ∧
    (buildEdge dep).sourceHandle = "bottom" ∧
    (buildEdge dep).targetHandle = "top" ∧
    (buildEdge dep).markerStart = none ∧
    (buildEdge dep).markerEnd = some arrowClosedMarker ∧
    (buildEdge dep).hidden = false := by
  have hf : ¬ dep.data_flow = "gated by user feedback" := by rw [h]; decide
  have hr : ¬ dep.data_flow = "rethinking the previous task" := by rw [h]; decide
  simp [buildEdge, h, hf, hr]

/-- Witness for `c1_parent_edge_presentation` at a concrete dependency. -/
theorem c1_parent_edge_presentation_witness :
    (⟨"1", "2", "parent task-subtask", "r", "s"⟩ : Dependency).data_flow =
        "parent task-subtask" ∧
    ((buildEdge ⟨"1", "2", "parent task-subtask", "r", "s"⟩).type = "straight" ∧
     (buildEdge ⟨"1", "2", "parent task-subtask", "r", "s"⟩).style.strokeDasharray = some "4 4" ∧
     (buildEdge ⟨"1", "2", "parent task-subtask", "r", "s"⟩).sourceHandle = "bottom" ∧
     (buildEdge ⟨"1", "2", "parent task-subtask", "r", "s"⟩).targetHandle = "top" ∧
     (buildEdge ⟨"1", "2", "parent task-subtask", "r", "s"⟩).markerStart = none ∧
     (buildEdge ⟨"1", "2", "parent task-subtask", "r", "s"⟩).markerEnd = some arrowClosedMarker ∧
     (buildEdge ⟨"1", "2", "parent task-subtask", "r", "s"⟩).hidden = false) :=
  ⟨rfl, c1_parent_edge_presentation _ rfl⟩

/-- **C10** (confirmed).  The emitted edge id is `"e" ++ source ++ "-" ++
target` (line 362): two dependency records with equal source and equal
target ids produce identical edge ids, whatever their `data_flow` kind. -/
theorem c10_edge_id_ignores_kind (d1 d2 : Dependency)
    (hs : d1.source = d2.source) (ht : d1.target = d2.target) :
    (buildEdge d1).id = (buildEdge d2).id := by
  simp [buildEdge, hs, ht]

/-- Witness for `c10_edge_id_ignores_kind`: two records over the same task
pair with different kinds get the same id `"e7-9"`. -/
theorem c10_edge_id_ignores_kind_witness :
    (⟨"7", "9", "parent task-subtask", "a", "b"⟩ : Dependency).source =
        (⟨"7", "9", "gated by user feedback", "c", "d"⟩ : Dependency).source ∧
    (⟨"7", "9", "parent task-subtask", "a", "b"⟩ : Dependency).target =
        (⟨"7", "9", "gated by user feedback", "c", "d"⟩ : Dependency).target ∧
    (buildEdge ⟨"7", "9", "parent task-subtask", "a", "b"⟩).id =
        (buildEdge ⟨"7", "9", "gated by user feedback", "c", "d"⟩).id :=
  ⟨rfl, rfl, c10_edge_id_ignores_kind _ _ rfl rfl⟩

/-- **C2** (code bug, violation exhibited).  Trace: the pane is on project 1,
switches to project 2, the fetch issued for 2 completes, then the stale
fetch issued for 1 completes.  The completion handler (lines 377-379)
applies the stale results unconditionally: afterwards the active project
is 2 but the rendered base state is project 1's data, which differs from
project 2's just-rendered data.  The spec requires the stale results to be
discarded. -/
theorem c2_stale_fetch_applied :
    (completeGraphFetch
      (completeGraphFetch (switchProject ⟨1, ⟨[], [], []⟩⟩ 2)
        ⟨2, [⟨"10", "q", ""⟩], []⟩)
      ⟨1, [⟨"5", "p", ""⟩], [⟨"5", "6", "parent task-subtask", "", ""⟩]⟩).currentPid = 2 ∧
    (completeGraphFetch
      (completeGraphFetch (switchProject ⟨1, ⟨[], [], []⟩⟩ 2)
        ⟨2, [⟨"10", "q", ""⟩], []⟩)
      ⟨1, [⟨"5", "p", ""⟩], [⟨"5", "6", "parent task-subtask", "", ""⟩]⟩).base.baseDeps =
      [⟨"5", "6", "parent task-subtask", "", ""⟩] ∧
    (completeGraphFetch
      (completeGraphFetch (switchProject ⟨1, ⟨[], [], []⟩⟩ 2)
        ⟨2, [⟨"10", "q", ""⟩], []⟩)
      ⟨1, [⟨"5", "p", ""⟩], [⟨"5", "6", "parent task-subtask", "", ""⟩]⟩).base.baseDeps ≠
      (completeGraphFetch (switchProject ⟨1, ⟨[], [], []⟩⟩ 2)
        ⟨2, [⟨"10", "q", ""⟩], []⟩).base.baseDeps := by
  refine ⟨rfl, rfl, ?_⟩
  decide

/-- **C3** (counterexample).  A selection is active (`node "5"`), the
external `project-changed` broadcast delivers a new project id 2 while the
`projectId` prop stays unchanged: the selection is cleared, but the host
callback emits nothing — not the "exactly once with null" the claim
requires (the notify effect of lines 563-565 only watches the prop). -/
theorem c3_counterexample :
    (onProjectBroadcast ⟨some 1, some (PaneElement.node "5")⟩ (some (some 2))).1.selectedElement = none ∧
    (onProjectBroadcast ⟨some 1, some (PaneElement.node "5")⟩ (some (some 2))).2 = [] := by
  decide

/-- **C3** (amended).  When the `projectId` prop changes, the selection
resets to none and `onTaskSelected` is invoked with `null` exactly once;
when only the external broadcast delivers a new project id, the selection
resets to none but no `onTaskSelected` call is made. -/
theorem c3_selection_reset_on_project_change :
    (∀ (st : PaneSyncState) (oldPid newPid : Int), oldPid ≠ newPid →
      (onPropProjectIdChange st oldPid newPid).1.selectedElement = none ∧
      (onPropProjectIdChange st oldPid newPid).2 = [none]) ∧
    (∀ (st : PaneSyncState) (pid : Option Int), pid ≠ st.selectedId →
      (onProjectBroadcast st (some pid)).1.selectedElement = none ∧
      (onProjectBroadcast st (some pid)).2 = []) := by
  constructor
  · intro st o n h
    simp [onPropProjectIdChange, h]
  · intro st p h
    simp [onProjectBroadcast, h]

/-- Witness for `c3_selection_reset_on_project_change` on both routes at
concrete inputs. -/
theorem c3_selection_reset_witness :
    ((1 : Int) ≠ 2 ∧
      (onPropProjectIdChange ⟨some 1, some (PaneElement.node "5")⟩ 1 2).1.selectedElement = none ∧
      (onPropProjectIdChange ⟨some 1, some (PaneElement.node "5")⟩ 1 2).2 = [none]) ∧
    ((some 3 : Option Int) ≠ (⟨some 1, some (PaneElement.node "5")⟩ : PaneSyncState).selectedId ∧
      (onProjectBroadcast ⟨some 1, some (PaneElement.node "5")⟩ (some (some 3))).1.selectedElement = none ∧
      (onProjectBroadcast ⟨some 1, some (PaneElement.node "5")⟩ (some (some 3))).2 = []) :=
  ⟨⟨by decide, c3_selection_reset_on_project_change.1 _ 1 2 (by decide)⟩,
   ⟨by decide, c3_selection_reset_on_project_change.2 _ (some 3) (by decide)⟩⟩

/-- **C6** (confirmed).  If either of the two fetches (or its body parse)
fails, the whole `try` block is abandoned before any `setBase*` call runs:
the previously rendered base nodes, edges and dependencies are all left
unchanged. -/
theorem c6_fetch_failure_preserves_graph (st : PaneGraphState)
    (tasksJson : Except String (List Task))
    (depsJson : Except String (List Dependency))
    (h : (∃ m, tasksJson = .error m) ∨ (∃ m, depsJson = .error m)) :
    graphFetchEffect st tasksJson depsJson = st := by
  rcases h with ⟨m, rfl⟩ | ⟨m, rfl⟩
  · rfl
  · cases tasksJson <;> rfl

/-- Witness for `c6_fetch_failure_preserves_graph`: a dependency-parse
failure with a successful task fetch leaves a nonempty state untouched. -/
theorem c6_fetch_failure_preserves_graph_witness :
    ((∃ m, (Except.ok [⟨"1", "t", ""⟩] : Except String (List Task)) = .error m) ∨
     (∃ m, (Except.error "boom" : Except String (List Dependency)) = .error m)) ∧
    graphFetchEffect ⟨[buildNode ⟨"1", "t", ""⟩], [], []⟩
      (Except.ok [⟨"1", "t", ""⟩]) (Except.error "boom") =
      ⟨[buildNode ⟨"1", "t", ""⟩], [], []⟩ :=
  ⟨Or.inr ⟨"boom", rfl⟩,
   c6_fetch_failure_preserves_graph _ _ _ (Or.inr ⟨"boom", rfl⟩)⟩

/-- **C7** (counterexample).  The selected element is the *edge* `e1-2`
(source task 1, target task 2) and the successfully deleted task has the
string id `"e1-2"` (task ids may be strings).  The matching at line 480 is
by id string only, so the edge selection is cleared and `null` is
notified, although the claim requires an edge selection to survive any
task deletion unchanged, with no notification. -/
theorem c7_counterexample :
    deleteTaskOnSuccess (some (PaneElement.edge "e1-2")) "e1-2" = (none, [none]) := by
  decide

/-- **C7** (amended).  After a successful delete of task `taskId`: a
selected element whose id string equals `taskId` (the selected task
itself, or — when a string task id collides with a synthesized edge id —
an edge) is cleared and the host notified with `null`; any other selected
element is kept identically with no notification; an empty selection stays
empty with no notification. -/
theorem c7_delete_selection_update (sel : Option PaneElement) (taskId : String) :
    (∀ el, sel = some el → el.elemId = taskId →
      deleteTaskOnSuccess sel taskId = (none, [none])) ∧
    (∀ el, sel = some el → el.elemId ≠ taskId →
      deleteTaskOnSuccess sel taskId = (sel, [])) ∧
    (sel = none → deleteTaskOnSuccess sel taskId = (none, [])) := by
  refine ⟨?_, ?_, ?_⟩
  · rintro el rfl h
    simp [deleteTaskOnSuccess, h]
  · rintro el rfl h
    simp [deleteTaskOnSuccess, h]
  · rintro rfl
    rfl

/-- Witness for `c7_delete_selection_update`: deleting selected task `"2"`
clears and notifies; deleting task `"2"` while node `"3"` is selected
changes nothing. -/
theorem c7_delete_selection_update_witness :
    ((some (PaneElement.node "2") : Option PaneElement) = some (PaneElement.node "2") ∧
      (PaneElement.node "2").elemId = "2" ∧
      deleteTaskOnSuccess (some (PaneElement.node "2")) "2" = (none, [none])) ∧
    ((some (PaneElement.node "3") : Option PaneElement) = some (PaneElement.node "3") ∧
      (PaneElement.node "3").elemId ≠ "2" ∧
      deleteTaskOnSuccess (some (PaneElement.node "3")) "2" = (some (PaneElement.node "3"), [])) :=
  ⟨⟨rfl, by decide,
      (c7_delete_selection_update (some (PaneElement.node "2")) "2").1 _ rfl (by decide)⟩,
   ⟨rfl, by decide,
      (c7_delete_selection_update (some (PaneElement.node "3")) "2").2.1 _ rfl (by decide)⟩⟩

/-- **C9** (counterexample).  The preserve marker holds the id `"x"` and
the refetched node set contains a node with id `"x"`: the match is found
and re-established as the selection, but the host is *not* re-notified
(lines 412-414 notify only when `Number(found.id)` is finite, and
ECMAScript's `Number("x")` is `NaN` — `numberOnSample` instantiates the
conversion parameter accordingly), contradicting the claim's
unconditional "re-notified with its numeric id". -/
theorem c9_counterexample :
    (restoreSelectionEffect numberOnSample (some "x")
      [⟨"x", ⟨0, 0⟩, ⟨"n", ""⟩, "task-node", "task", 180, none, none, none⟩]
      none).2.1 = some (PaneElement.node "x") ∧
    (restoreSelectionEffect numberOnSample (some "x")
      [⟨"x", ⟨0, 0⟩, ⟨"n", ""⟩, "task-node", "task", 180, none, none, none⟩]
      none).2.2 = [] := by
  decide

/-- **C9** (amended).  For every `Number` conversion, with the marker set
and a non-empty refetched node set: a falsy empty-string marker
early-returns with the marker, the selection and the host untouched;
otherwise the marker is cleared regardless of a match; a found node is
re-established as the selection, and the host is re-notified exactly when
the conversion of its id is finite (otherwise it restores silently); with
no match the selection is left unchanged. -/
theorem c9_restore_selection (numberOf : String → Option ℚ) (wanted : String)
    (nodes : List GraphNode) (sel : Option PaneElement) (hne : nodes ≠ []) :
    (wanted = "" →
      restoreSelectionEffect numberOf (some wanted) nodes sel =
        (some wanted, sel, [])) ∧
    (wanted ≠ "" →
      (restoreSelectionEffect numberOf (some wanted) nodes sel).1 = none ∧
      (∀ found, nodes.find? (fun n => n.id = wanted) = some found →
        (restoreSelectionEffect numberOf (some wanted) nodes sel).2.1 =
            some (PaneElement.node found.id) ∧
        (restoreSelectionEffect numberOf (some wanted) nodes sel).2.2 =
            (match numberOf found.id with
             | some k => [some k]
             | none => [])) ∧
      (nodes.find? (fun n => n.id = wanted) = none →
        (restoreSelectionEffect numberOf (some wanted) nodes sel).2 = (sel, []))) := by
  have hlen : ¬ nodes.length = 0 := by
    simpa [List.length_eq_zero] using hne
  constructor
  · intro hw
    simp [restoreSelectionEffect, hw]
  · intro hw
    refine ⟨?_, ?_, ?_⟩
    · simp only [restoreSelectionEffect, if_neg hw, if_neg hlen]
      cases h : nodes.find? (fun n => n.id = wanted) <;> simp [h]
    · intro found hf
      simp [restoreSelectionEffect, if_neg hw, if_neg hlen, hf, hne]
    · intro hf
      simp [restoreSelectionEffect, if_neg hw, if_neg hlen, hf, hne]

/-- Witness for `c9_restore_selection`: marker `"2"` matching node `"2"`
(with the sample conversion, under which `Number("2") = 2` is finite)
re-selects it and re-notifies with `2`; the marker is cleared. -/
theorem c9_restore_selection_witness :
    ([⟨"2", ⟨0, 0⟩, ⟨"n", ""⟩, "task-node", "task", 180, none, none, none⟩] :
        List GraphNode) ≠ [] ∧
    ("2" : String) ≠ "" ∧
    (restoreSelectionEffect numberOnSample (some "2")
      [⟨"2", ⟨0, 0⟩, ⟨"n", ""⟩, "task-node", "task", 180, none, none, none⟩]
      none).1 = none ∧
    (restoreSelectionEffect numberOnSample (some "2")
      [⟨"2", ⟨0, 0⟩, ⟨"n", ""⟩, "task-node", "task", 180, none, none, none⟩]
      none).2.1 = some (PaneElement.node "2") ∧
    (restoreSelectionEffect numberOnSample (some "2")
      [⟨"2", ⟨0, 0⟩, ⟨"n", ""⟩, "task-node", "task", 180, none, none, none⟩]
      none).2.2 = [some 2] := by
  have h := c9_restore_selection numberOnSample "2"
    [⟨"2", ⟨0, 0⟩, ⟨"n", ""⟩, "task-node", "task", 180, none, none, none⟩]
    none (by decide)
  have h2 := h.2 (by decide)
  have hf : ([⟨"2", ⟨0, 0⟩, ⟨"n", ""⟩, "task-node", "task", 180, none, none, none⟩] :
      List GraphNode).find? (fun n => n.id = "2") =
      some ⟨"2", ⟨0, 0⟩, ⟨"n", ""⟩, "task-node", "task", 180, none, none, none⟩ := by
    decide
  refine ⟨by decide, by decide, h2.1, ?_, ?_⟩
  · exact (h2.2.1 _ hf).1
  · exact ((h2.2.1 _ hf).2).trans (by decide)

end Kair
